import Mathlib

/-!
Verification of the pipelines-consolidator repository.

The repository is a sequential ETL script: it enumerates Jenkins jobs,
classifies each job's pipeline definition, fetches the job's Jenkinsfile
from GitLab when the job is a "Pipeline Script from SCM" job, classifies
the Jenkinsfile text, and writes one CSV row per job.

This file gives a shallow embedding of that per-job logic:

* the pure text functions of `packages/gitlab/gitlab_api.py`
  (`convert_scm_url`, `check_modularity`, `parse_shared_library`,
  `parse_module_name`) are translated character by character, with the
  Python `re` semantics of the concrete patterns spelled out as scanning
  functions over `List Char`;
* `get_jenkinsfile_content` is translated with the HTTP transport as an
  explicit oracle `String → HttpResponse`, and instrumented with the list
  of branches for which a request is issued;
* the per-job body of `__main__.main` is `process_job`, with the Jenkins
  metadata endpoints as oracle fields of an environment `Env` (they are
  network reads in the source), and `helpers.is_older_than_three_months`
  with instants as integer Unix seconds and the current time explicit;
* `helpers.save_to_csv` is modelled as the list of CSV records written.
-/

namespace Consolidator

/-- Python `\s` on ASCII text, the class `str.strip` and the `re` module use. -/
def isPySpace (c : Char) : Bool :=
  c = ' ' || c = '\t' || c = '\n' || c = '\r' || c = '\x0b' || c = '\x0c'

/-- Python `\w` on ASCII text: letters, digits and the underscore. -/
def isWordChar (c : Char) : Bool :=
  c.isAlphanum || c = '_'

/-- Python `pat in s` (substring test), on character lists. -/
def isSubstr (pat : List Char) : List Char → Bool
  | [] => pat.isEmpty
  | s@(_ :: rest) => pat.isPrefixOf s || isSubstr pat rest

/-- Both-ends strip by a character class, as Python `str.strip` does. -/
def stripBy (p : Char → Bool) (l : List Char) : List Char :=
  ((l.dropWhile p).reverse.dropWhile p).reverse

/-- Python `s.split(sep)[0]` for a nonempty separator: the prefix of `s`
before the first occurrence of `sep`, the whole of `s` when none occurs. -/
def split_first (sep : List Char) : List Char → List Char
  | [] => []
  | c :: rest =>
    if sep.isPrefixOf (c :: rest) then []
    else c :: split_first sep rest

/-! ## `GitLabAPI.convert_scm_url` -/

/-- One pass of Python `re.sub` with pattern `(?:git@)?(.*?):` and
replacement `https://\1/`. `pending` holds, reversed, the characters read
since the last match or newline. A colon closes a match whose group is the
pending segment, with a literal `git@` prefix consumed by the optional
non-capturing group when present; `.` does not cross newlines, so a newline
flushes the pending segment unchanged (every position of a line whose
remainder holds no colon fails to match and its character is copied). -/
def subGo (pending : List Char) : List Char → List Char
  | [] => pending.reverse
  | c :: rest =>
    if c = ':' then
      let seg := pending.reverse
      "https://".toList ++
        (if "git@".toList.isPrefixOf seg then seg.drop 4 else seg) ++
        '/' :: subGo [] rest
    else if c = '\n' then
      pending.reverse ++ '\n' :: subGo [] rest
    else
      subGo (c :: pending) rest

/-- `GitLabAPI.convert_scm_url`: a URL already starting with `https://` is
returned as is; otherwise the substitution above is applied. -/
def convert_scm_url (scm_url : String) : String :=
  if "https://".toList.isPrefixOf scm_url.data then scm_url
  else String.mk (subGo [] scm_url.data)

/-! ## `GitLabAPI.check_modularity` -/

/-- A Python value that is either a `bool` or a `str`, as
`check_modularity` returns and as the `is_modular` row field holds. -/
inductive BoolOrStr where
  | ofBool (b : Bool)
  | ofStr (s : String)
deriving DecidableEq

/-- Python truthiness of such a value: a string is truthy iff nonempty. -/
def BoolOrStr.truthy : BoolOrStr → Bool
  | .ofBool b => b
  | .ofStr s => s != ""

/-- `GitLabAPI.check_modularity`: the fetch-failure sentinel on absent
content, else a substring test for the modular-library marker. -/
def check_modularity : Option String → BoolOrStr
  | none => .ofStr "Failed to fetch Jenkinsfile"
  | some content => .ofBool (isSubstr "cicd-modular-library".toList content.data)

/-! ## `GitLabAPI.parse_shared_library` -/

/-- The lazy group `([^\]]+?)` of the library-directive pattern: at least
one character other than `]`, as few as possible, followed by the literal
closer quote-bracket-paren-underscore. -/
def lazyLibGroup : List Char → Option (List Char)
  | [] => none
  | c :: rest =>
    if c = ']' then none
    else if "'])_".toList.isPrefixOf rest then some [c]
    else
      match lazyLibGroup rest with
      | some g => some (c :: g)
      | none => none

/-- `re.search` of pattern `@Library\(\['([^\]]+?)'\]\)_`: try each start
position left to right; a match must open with the literal directive head,
then the lazy group runs to the nearest closer. Returns the group. -/
def findLibMatch : List Char → Option (List Char)
  | [] => none
  | s@(_ :: rest) =>
    match (if "@Library(['".toList.isPrefixOf s then lazyLibGroup (s.drop 11) else none) with
    | some g => some g
    | none => findLibMatch rest

/-- Python `s.split(',')`: split at every comma. -/
def splitComma : List Char → List (List Char)
  | [] => [[]]
  | c :: rest =>
    if c = ',' then [] :: splitComma rest
    else
      match splitComma rest with
      | h :: t => (c :: h) :: t
      | [] => [[c]]

/-- `GitLabAPI.parse_shared_library`: non-string content yields the
sentinel; otherwise the first match's group is split on commas, each piece
stripped of whitespace, pieces equal to `cicd-modular-library` dropped, and
the first remaining piece, stripped of single quotes, is returned; the
sentinel when no match or no piece remains. -/
def parse_shared_library : Option String → String
  | none => "No Shared Library"
  | some content =>
    match findLibMatch content.data with
    | none => "No Shared Library"
    | some g =>
      let libs := ((splitComma g).map (stripBy isPySpace)).filter
        (fun l => l != "cicd-modular-library".toList)
      match libs with
      | [] => "No Shared Library"
      | l :: _ => String.mk (stripBy (fun c => c = '\'') l)

/-! ## `GitLabAPI.parse_module_name` -/

/-- One attempt of pattern `^\s*(\w+)\s*\(` at a line-start position: skip
whitespace (in Python `\s` crosses newlines), take a maximal nonempty run
of word characters as the group, skip whitespace again, and require an
opening parenthesis. The character classes are disjoint, so maximal munch
is the regex's backtracking behaviour. -/
def matchModuleAt (s : List Char) : Option (List Char) :=
  let afterSpace := s.dropWhile isPySpace
  let w := afterSpace.takeWhile isWordChar
  if w.isEmpty then none
  else
    match (afterSpace.drop w.length).dropWhile isPySpace with
    | '(' :: _ => some w
    | _ => none

/-- The module-call pattern tried at each position just after a newline. -/
def searchNext : List Char → Option (List Char)
  | [] => none
  | c :: rest =>
    if c = '\n' then
      match matchModuleAt rest with
      | some w => some w
      | none => searchNext rest
    else searchNext rest

/-- `re.search` of `^\s*(\w+)\s*\(` with `re.MULTILINE`: position 0 first,
then each position following a newline, leftmost match wins. -/
def searchModule (s : List Char) : Option (List Char) :=
  match matchModuleAt s with
  | some w => some w
  | none => searchNext s

/-- `GitLabAPI.parse_module_name`: non-string content yields the sentinel;
else the single search result's group when it is not literally `Library`,
the sentinel otherwise (the source searches once and does not continue past
a first match named `Library`). -/
def parse_module_name : Option String → String
  | none => "No Module Detected"
  | some content =>
    match searchModule content.data with
    | some w => if String.mk w ≠ "Library" then String.mk w else "No Module Detected"
    | none => "No Module Detected"

/-! ## `GitLabAPI.get_jenkinsfile_content` -/

/-- Python `branch_specifier.replace("*/", "")`: delete every occurrence,
scanning left to right. -/
def replaceStarSlash : List Char → List Char
  | '*' :: '/' :: rest => replaceStarSlash rest
  | c :: rest => c :: replaceStarSlash rest
  | [] => []

/-- The candidate branch list: the two default branches for the wildcard or
literal `Any` specifier, else the one specifier with glob prefixes removed. -/
def branches_to_try (branch_specifier : String) : List String :=
  if branch_specifier = "**" ∨ branch_specifier = "Any" then ["main", "master"]
  else [String.mk (replaceStarSlash branch_specifier.data)]

/-- The literal host prefix shared by the two project-path extraction
patterns of `get_jenkinsfile_content`. -/
def hostPrefix : List Char :=
  "https://git.org-country.internal.replace-organization-name.com/".toList

/-- The maximal stretch `.` can cross: the rest of the current line. -/
def takeLine (l : List Char) : List Char := l.takeWhile (fun c => c != '\n')

/-- Split a line around the last occurrence of `.git`: greedy `.*` followed
by a literal `\.git` backtracks from the right, so the captured group runs
to the last occurrence. -/
def lastSplitGit : List Char → Option (List Char × List Char)
  | [] => none
  | c :: rest =>
    match lastSplitGit rest with
    | some (g, t) => some (c :: g, t)
    | none =>
      if ".git".toList.isPrefixOf (c :: rest) then some ([], (c :: rest).drop 4)
      else none

theorem lastSplitGit_eq : ∀ {l g t : List Char}, lastSplitGit l = some (g, t) →
    l = g ++ '.' :: 'g' :: 'i' :: 't' :: t := by
  intro l
  induction l with
  | nil => intro g t h; simp [lastSplitGit] at h
  | cons c rest ih =>
    intro g t h
    rw [lastSplitGit] at h
    cases hr : lastSplitGit rest with
    | some p =>
      rw [hr] at h
      cases h
      simpa using congrArg (c :: ·) (ih hr)
    | none =>
      rw [hr] at h
      by_cases hp : ".git".toList.isPrefixOf (c :: rest)
      · rw [if_pos hp] at h
        cases h
        obtain ⟨u, hu⟩ := List.isPrefixOf_iff_prefix.mp hp
        simp [← hu]
      · rw [if_neg hp] at h
        exact absurd h (by simp)

/-- `re.sub` with pattern host-prefix + `(.*)` and replacement `\1`: each
occurrence of the host prefix together with the rest of its line is
replaced by that rest; scanning continues after the match. -/
def stripHostPlain : List Char → List Char
  | [] => []
  | c :: rest =>
    if hostPrefix.isPrefixOf (c :: rest) then
      let r := (c :: rest).drop hostPrefix.length
      takeLine r ++ stripHostPlain (r.drop (takeLine r).length)
    else c :: stripHostPlain rest
termination_by s => s.length
decreasing_by
  · have hpos : 0 < hostPrefix.length := by decide
    simp only [List.length_drop, List.length_cons]
    omega
  · simp

/-- `re.sub` with pattern host-prefix + `(.*)\.git` and replacement `\1`:
at an occurrence of the host prefix whose line remainder holds `.git`, the
greedy group runs to the last `.git` of the line and the whole match is
replaced by the group; with no `.git` on the line the position does not
match and one character is copied. -/
def stripHostGit : List Char → List Char
  | [] => []
  | c :: rest =>
    if hostPrefix.isPrefixOf (c :: rest) then
      match hsplit : lastSplitGit (takeLine ((c :: rest).drop hostPrefix.length)) with
      | some (g, t) =>
        g ++ stripHostGit
          (t ++ ((c :: rest).drop hostPrefix.length).drop
            (takeLine ((c :: rest).drop hostPrefix.length)).length)
      | none => c :: stripHostGit rest
    else c :: stripHostGit rest
termination_by s => s.length
decreasing_by
  · have hlen := congrArg List.length (lastSplitGit_eq hsplit)
    simp only [List.length_append, List.length_cons] at hlen
    have htl : (takeLine ((c :: rest).drop hostPrefix.length)).length ≤
        ((c :: rest).drop hostPrefix.length).length :=
      (List.takeWhile_prefix _).length_le
    simp only [List.length_append, List.length_drop, List.length_cons] at htl ⊢
    omega
  · simp
  · simp

/-- Python `path.replace("/", "%2F")`. -/
def pctEncode (l : List Char) : List Char :=
  l.flatMap (fun c => if c = '/' then "%2F".toList else [c])

/-- The project path extracted from the SCM URL inside the branch loop: the
pattern ending in `\.git` is used when the URL ends in `.git`, the bare
pattern otherwise. -/
def project_path (scm_url : String) : List Char :=
  if ".git".toList.isSuffixOf scm_url.data then stripHostGit scm_url.data
  else stripHostPlain scm_url.data

/-- The raw-file API URL built for one candidate branch. -/
def mk_jenkinsfile_url (scm_url jenkinsfile_path branch : String) : String :=
  String.mk
    ("https://git.org-country.internal.replace-organization-name.com/api/v4/projects/".toList
      ++ pctEncode (project_path scm_url)
      ++ "/repository/files/".toList
      ++ pctEncode jenkinsfile_path.data
      ++ "/raw?ref=".toList
      ++ branch.data)

/-- An HTTP response as the script reads it: a status code and a body. -/
structure HttpResponse where
  status_code : Nat
  text : String

/-- Python `pat in text` on strings. -/
def py_in (pat text : String) : Bool := isSubstr pat.data text.data

/-- The branch loop of `get_jenkinsfile_content`, over the HTTP oracle
`http`: a 200 response returns its body at once; a failed response whose
body holds one of the three known error substrings returns the matching
sentinel at once; otherwise the next branch is tried, `none` after the
last. The second component instruments the loop with the branches for
which a request was issued. -/
def fetch_loop (http : String → HttpResponse) (scm_url jenkinsfile_path : String) :
    List String → Option String × List String
  | [] => (none, [])
  | branch :: rest =>
    let r := http (mk_jenkinsfile_url scm_url jenkinsfile_path branch)
    if r.status_code = 200 then (some r.text, [branch])
    else if py_in "Project Not Found" r.text then (some "Project Not Found", [branch])
    else if py_in "File Not Found" r.text then (some "Jenkinsfile Not Found", [branch])
    else if py_in "Commit Not Found" r.text then (some "Branch Not Found", [branch])
    else
      let p := fetch_loop http scm_url jenkinsfile_path rest
      (p.1, branch :: p.2)

/-- `GitLabAPI.get_jenkinsfile_content`: `none` at once, with no request,
when the SCM URL or the Jenkinsfile path is the `NA` sentinel; else the
branch loop over the candidate branches. The first component is what the
Python function returns; the second instruments it with the attempted
branches. -/
def get_jenkinsfile_content (http : String → HttpResponse)
    (scm_url jenkinsfile_path branch_specifier job_name : String) :
    Option String × List String :=
  if scm_url = "NA" ∨ jenkinsfile_path = "NA" then (none, [])
  else fetch_loop http scm_url jenkinsfile_path (branches_to_try branch_specifier)

/-! ## `helpers.py` -/

/-- `helpers.is_older_than_three_months`, with instants as integer Unix
seconds (`datetime` subtraction and comparison become integer arithmetic,
one day being 86400 seconds) and `datetime.now()` passed in as `now`:
`None` propagates, otherwise whether the last run lies strictly before the
instant 90 days before now. -/
def is_older_than_three_months (now : Int) : Option Int → Option Bool
  | none => none
  | some last_run => some (decide (last_run < now - 90 * 86400))

/-- What Python `str()` writes for a `bool`, as `csv.writer` renders it. -/
def py_str_bool : Bool → String
  | true => "True"
  | false => "False"

/-- What `csv.writer` writes for the dynamically typed `is_modular` value. -/
def BoolOrStr.render : BoolOrStr → String
  | .ofBool b => py_str_bool b
  | .ofStr s => s

/-! ## The report assembler (`__main__.main`) -/

/-- One discovered Jenkins job, as `JenkinsAPI.fetch_jobs` yields it. -/
structure Job where
  name : String
  path : String
  url : String

/-- One row of the output CSV, the tuple appended per job by `main`. -/
structure ReportRow where
  job_name : String
  path : String
  job_url : String
  team : String
  pipeline_type : String
  scm_url : String
  jenkinsfile_path : String
  branch_specifier : String
  is_modular : BoolOrStr
  shared_library : String
  shared_library_module : String
  last_run : String
  is_last_run_old : Bool

/-- The external collaborators `main` reads, as oracles: the four Jenkins
config-extraction endpoints and the last-build endpoint keyed by job URL,
the GitLab HTTP transport keyed by request URL, the current time, and the
`strftime` rendering of an instant. Each claim quantifies over this
environment, so it covers every combination of per-job fetch outcomes. -/
structure Env where
  pipeline_type : String → String
  scm_url : String → String
  jenkinsfile_path : String → String
  branch_specifier : String → String
  last_run : String → Option Int
  http : String → HttpResponse
  now : Int
  strftime : Int → String

/-- The body of the per-job loop of `__main__.main`, lines 75-141: one
`ReportRow` from one `Job`. -/
def process_job (env : Env) (job : Job) : ReportRow :=
  let pipeline_type := env.pipeline_type job.url
  let scm_url := convert_scm_url (env.scm_url job.url)
  let jenkinsfile_path := env.jenkinsfile_path job.url
  let branch_specifier := env.branch_specifier job.url
  let cls : BoolOrStr × String × String :=
    if pipeline_type = "Pipeline Script" ∨ pipeline_type = "Unknown or not a Pipeline job" then
      (.ofBool false, "NA", "NA")
    else
      let content := (get_jenkinsfile_content env.http scm_url jenkinsfile_path
        branch_specifier job.name).1
      let is_modular := check_modularity content
      if is_modular.truthy then
        let shared_library := parse_shared_library content
        if shared_library = "No Shared Library" then (is_modular, shared_library, "NA")
        else (is_modular, shared_library, parse_module_name content)
      else (is_modular, "NA", "NA")
  let lrp : String × Bool :=
    match env.last_run job.url with
    | none => ("No Runs", true)
    | some t => (env.strftime t, (is_older_than_three_months env.now (some t)).getD false)
  { job_name := job.name
    path := job.path
    job_url := job.url
    team := String.mk (split_first " -> ".toList job.path.data)
    pipeline_type := pipeline_type
    scm_url := scm_url
    jenkinsfile_path := jenkinsfile_path
    branch_specifier := branch_specifier
    is_modular := cls.1
    shared_library := cls.2.1
    shared_library_module := cls.2.2
    last_run := lrp.1
    is_last_run_old := lrp.2 }

/-- The branches for which `process_job` issues a Jenkinsfile request: none
at all on the not-from-SCM branch of the conditional, else the instrumented
attempt list of `get_jenkinsfile_content`. -/
def process_job_attempts (env : Env) (job : Job) : List String :=
  if env.pipeline_type job.url = "Pipeline Script" ∨
      env.pipeline_type job.url = "Unknown or not a Pipeline job" then []
  else
    (get_jenkinsfile_content env.http (convert_scm_url (env.scm_url job.url))
      (env.jenkinsfile_path job.url) (env.branch_specifier job.url) job.name).2

/-- The whole loop of `main`: the processed-jobs list, one row per job in
discovery order. -/
def main_rows (env : Env) (jobs : List Job) : List ReportRow :=
  jobs.map (process_job env)

/-- The header record `helpers.save_to_csv` writes first. -/
def csv_header : List String :=
  ["job_name", "path", "job_url", "team", "pipeline_type", "scm_url",
   "jenkinsfile_path", "branch_specifier", "is_modular",
   "shared_library", "shared_library_module", "last_run", "Is_last_run_old"]

/-- One data record as `csv.writer.writerow` receives it. -/
def row_record (r : ReportRow) : List String :=
  [r.job_name, r.path, r.job_url, r.team, r.pipeline_type, r.scm_url,
   r.jenkinsfile_path, r.branch_specifier, r.is_modular.render,
   r.shared_library, r.shared_library_module, r.last_run,
   py_str_bool r.is_last_run_old]

/-- `helpers.save_to_csv`, modelled as the list of records written to the
file: the header record, then one record per row, in order. -/
def save_to_csv (rows : List ReportRow) : List (List String) :=
  csv_header :: rows.map row_record

/-! ## Lemmas about the URL substitution -/

theorem subGo_no_colon : ∀ {s : List Char}, ':' ∉ s →
    ∀ pending : List Char, subGo pending s = pending.reverse ++ s := by
  intro s
  induction s with
  | nil => intro _ pending; simp [subGo]
  | cons c rest ih =>
    intro h pending
    have hc : ¬ c = ':' := fun hc => h (hc ▸ List.mem_cons_self c rest)
    have hrest : ':' ∉ rest := fun hm => h (List.mem_cons_of_mem c hm)
    rw [subGo, if_neg hc]
    by_cases hn : c = '\n'
    · subst hn
      rw [if_pos rfl, ih hrest]
      simp
    · rw [if_neg hn, ih hrest]
      simp

theorem subGo_first_colon : ∀ {a : List Char}, ':' ∉ a → '\n' ∉ a →
    ∀ (b pending : List Char), subGo pending (a ++ ':' :: b) =
      "https://".toList ++
        (if "git@".toList.isPrefixOf (pending.reverse ++ a) then
          (pending.reverse ++ a).drop 4
         else pending.reverse ++ a) ++
        '/' :: subGo [] b := by
  intro a
  induction a with
  | nil => intro _ _ b pending; rw [List.nil_append, subGo, if_pos rfl]; simp
  | cons c rest ih =>
    intro hc hn b pending
    have hcc : ¬ c = ':' := fun h => hc (h ▸ List.mem_cons_self c rest)
    have hcn : ¬ c = '\n' := fun h => hn (h ▸ List.mem_cons_self c rest)
    have hc2 : ':' ∉ rest := fun hm => hc (List.mem_cons_of_mem c hm)
    have hn2 : '\n' ∉ rest := fun hm => hn (List.mem_cons_of_mem c hm)
    rw [List.cons_append, subGo, if_neg hcc, if_neg hcn, ih hc2 hn2]
    simp [List.append_assoc]

theorem isPrefixOf_append_self (l t : List Char) : l.isPrefixOf (l ++ t) = true :=
  List.isPrefixOf_iff_prefix.mpr (List.prefix_append l t)

theorem exists_first_colon : ∀ {s : List Char}, ':' ∈ s →
    ∃ a b, s = a ++ ':' :: b ∧ ':' ∉ a := by
  intro s
  induction s with
  | nil => intro h; exact absurd h (List.not_mem_nil ':')
  | cons c rest ih =>
    intro h
    by_cases hc : c = ':'
    · exact ⟨[], rest, by rw [hc]; simp, List.not_mem_nil ':'⟩
    · have : ':' ∈ rest := by
        rcases List.mem_cons.mp h with h1 | h1
        · exact absurd h1.symm hc
        · exact h1
      obtain ⟨a, b, hab, hna⟩ := ih this
      exact ⟨c :: a, b, by rw [hab]; rfl,
        fun hm => by
          rcases List.mem_cons.mp hm with h1 | h1
          · exact hc h1.symm
          · exact hna h1⟩

/-- A list holding `@` before its first colon cannot start with
`https://`, whose sixth character is a colon. -/
theorem https_not_prefix : ∀ {l₁ l₂ : List Char}, '@' ∈ l₁ → ':' ∉ l₁ →
    "https://".toList.isPrefixOf (l₁ ++ ':' :: l₂) = false := by
  intro l₁ l₂ hat hc
  by_contra hne
  have h : "https://".toList.isPrefixOf (l₁ ++ ':' :: l₂) = true := by
    cases hb : "https://".toList.isPrefixOf (l₁ ++ ':' :: l₂)
    · exact absurd hb hne
    · rfl
  obtain ⟨u, hu⟩ := List.isPrefixOf_iff_prefix.mp h
  have hpat : "https://".toList = ['h', 't', 't', 'p', 's', ':', '/', '/'] := rfl
  rw [hpat] at hu
  rcases l₁ with _ | ⟨a, _ | ⟨b, _ | ⟨c, _ | ⟨d, _ | ⟨e, _ | ⟨f, r⟩⟩⟩⟩⟩⟩ <;> simp_all
  obtain ⟨h1, h2, h3, h4, h5⟩ := h
  subst h1; subst h2; subst h3; subst h4; subst h5
  exact absurd hat (by decide)

/-! ## Claims about `convert_scm_url` (C4, C5, C10) -/

/-- C4, counterexample: the claim says `convert_scm_url` maps every
SSH-style URL `user@host:path` to `https://host/path`; for the user
`alice` the code keeps the user part, producing
`https://alice@host/path`. -/
theorem convert_scm_url_c4_cex :
    convert_scm_url "alice@host:path" = "https://alice@host/path" ∧
    convert_scm_url "alice@host:path" ≠ "https://host/path" := by
  constructor <;> decide

/-- C4 (amended): `convert_scm_url` maps `git@host:path` — the user
literally `git`, consumed by the pattern's optional `git@` group — to
`https://host/path`, for host and path free of colons and newlines; for any
other user (a prefix `u@host` that does not itself start with `git@`) the
user part is preserved: `u@host:path` maps to `https://u@host/path`; and a
URL already starting with `https://` is returned unchanged. -/
theorem convert_scm_url_c4_amended (u host path : String)
    (hu : ':' ∉ u.data ∧ '\n' ∉ u.data)
    (hhost : ':' ∉ host.data ∧ '\n' ∉ host.data)
    (hpath : ':' ∉ path.data)
    (hng : "git@".toList.isPrefixOf (u.data ++ '@' :: host.data) = false) :
    convert_scm_url ("git@" ++ host ++ ":" ++ path) = "https://" ++ host ++ "/" ++ path
    ∧ convert_scm_url (u ++ "@" ++ host ++ ":" ++ path)
        = "https://" ++ u ++ "@" ++ host ++ "/" ++ path
    ∧ ∀ rest : String, convert_scm_url ("https://" ++ rest) = "https://" ++ rest := by
  have hdA : ("git@" ++ host ++ ":" ++ path).data
      = ("git@".toList ++ host.data) ++ ':' :: path.data := by
    simp [String.data_append, List.append_assoc]
  have hdB : (u ++ "@" ++ host ++ ":" ++ path).data
      = (u.data ++ '@' :: host.data) ++ ':' :: path.data := by
    simp [String.data_append, List.append_assoc]
  refine ⟨?_, ?_, ?_⟩
  · have hnc : ':' ∉ "git@".toList ++ host.data := by
      intro hm
      rcases List.mem_append.mp hm with h1 | h1
      · exact absurd h1 (by decide)
      · exact hhost.1 h1
    have hnn : '\n' ∉ "git@".toList ++ host.data := by
      intro hm
      rcases List.mem_append.mp hm with h1 | h1
      · exact absurd h1 (by decide)
      · exact hhost.2 h1
    have hnp : "https://".toList.isPrefixOf (("git@" ++ host ++ ":" ++ path).data) = false := by
      rw [hdA]
      exact https_not_prefix (by simp) hnc
    rw [convert_scm_url, hnp]
    simp only [Bool.false_eq_true, if_false, hdA]
    rw [subGo_first_colon hnc hnn, subGo_no_colon hpath]
    apply String.ext
    simp [isPrefixOf_append_self, String.toList, String.data_append, List.append_assoc]
  · have hnc : ':' ∉ u.data ++ '@' :: host.data := by
      intro hm
      rcases List.mem_append.mp hm with h1 | h1
      · exact hu.1 h1
      · rcases List.mem_cons.mp h1 with h2 | h2
        · exact absurd h2 (by decide)
        · exact hhost.1 h2
    have hnn : '\n' ∉ u.data ++ '@' :: host.data := by
      intro hm
      rcases List.mem_append.mp hm with h1 | h1
      · exact hu.2 h1
      · rcases List.mem_cons.mp h1 with h2 | h2
        · exact absurd h2 (by decide)
        · exact hhost.2 h2
    have hnp : "https://".toList.isPrefixOf ((u ++ "@" ++ host ++ ":" ++ path).data)
        = false := by
      rw [hdB]
      exact https_not_prefix (by simp) hnc
    rw [convert_scm_url, hnp]
    simp only [Bool.false_eq_true, if_false, hdB]
    rw [subGo_first_colon hnc hnn, subGo_no_colon hpath]
    apply String.ext
    simp only [List.reverse_nil, List.nil_append, hng, Bool.false_eq_true, if_false]
    simp [String.toList, String.data_append, List.append_assoc]
  · intro rest
    rw [convert_scm_url, if_pos]
    rw [String.data_append]
    exact isPrefixOf_append_self "https://".toList rest.data

/-- C4, witness for the amended theorem at user `alice`, host `host`,
path `path`. -/
theorem convert_scm_url_c4_witness :
    convert_scm_url ("git@" ++ "host" ++ ":" ++ "path") = "https://" ++ "host" ++ "/" ++ "path"
    ∧ convert_scm_url ("alice" ++ "@" ++ "host" ++ ":" ++ "path")
        = "https://" ++ "alice" ++ "@" ++ "host" ++ "/" ++ "path"
    ∧ ∀ rest : String, convert_scm_url ("https://" ++ rest) = "https://" ++ rest :=
  convert_scm_url_c4_amended "alice" "host" "path"
    (by decide) (by decide) (by decide) (by decide)

/-- C5, counterexample: `convert_scm_url` is not idempotent on every
string: for the two-character string newline-colon, the first pass yields
newline plus `https:///`, whose `https` segment the second pass rewrites
again. -/
theorem convert_scm_url_c5_cex :
    convert_scm_url (convert_scm_url "\n:") ≠ convert_scm_url "\n:" := by
  decide

/-- C5 (amended): `convert_scm_url` is idempotent on every string free of
newline characters (every SCM URL is); with a newline before the first
colon the substituted output can itself contain a fresh `user:`-shaped
line and be rewritten again. -/
theorem convert_scm_url_c5_idem (x : String) (h : '\n' ∉ x.data) :
    convert_scm_url (convert_scm_url x) = convert_scm_url x := by
  by_cases hpre : "https://".toList.isPrefixOf x.data = true
  · have hx : convert_scm_url x = x := by
      rw [convert_scm_url, if_pos hpre]
    rw [hx]
    exact hx
  · by_cases hc : ':' ∈ x.data
    · obtain ⟨a, b, hab, hna⟩ := exists_first_colon hc
      have hnn : '\n' ∉ a := fun hm => h (hab ▸ List.mem_append.mpr (Or.inl hm))
      have hx : convert_scm_url x = String.mk (subGo [] x.data) := by
        rw [convert_scm_url, if_neg hpre]
      have hform : subGo [] x.data =
          "https://".toList ++
            ((if "git@".toList.isPrefixOf a then List.drop 4 a else a) ++
              '/' :: subGo [] b) := by
        rw [hab, subGo_first_colon hna hnn]
        simp [List.append_assoc]
      have hpre2 : "https://".toList.isPrefixOf (convert_scm_url x).data = true := by
        rw [hx]
        show "https://".toList.isPrefixOf (subGo [] x.data) = true
        rw [hform]
        exact isPrefixOf_append_self _ _
      rw [convert_scm_url, if_pos hpre2]
    · have hid : subGo [] x.data = x.data := by
        simp [subGo_no_colon hc]
      have hx : convert_scm_url x = x := by
        rw [convert_scm_url, if_neg hpre, hid]
      rw [hx]
      exact hx

/-- C5, witness for the amended theorem at the newline-free SSH-style URL
`git@h:p`. -/
theorem convert_scm_url_c5_witness :
    convert_scm_url (convert_scm_url "git@h:p") = convert_scm_url "git@h:p" :=
  convert_scm_url_c5_idem "git@h:p" (by decide)

/-- C10: `convert_scm_url` returns every colon-free string unchanged, in
particular the sentinel `NA`, and `get_jenkinsfile_content` with an `NA`
SCM URL (also after normalization) or an `NA` Jenkinsfile path returns
`none` at once with no branch attempted. -/
theorem convert_scm_url_c10_na (x : String) (h : ':' ∉ x.data) :
    convert_scm_url x = x
    ∧ convert_scm_url "NA" = "NA"
    ∧ (∀ (http : String → HttpResponse) (path spec name : String),
        get_jenkinsfile_content http (convert_scm_url "NA") path spec name = (none, []))
    ∧ (∀ (http : String → HttpResponse) (scm spec name : String),
        get_jenkinsfile_content http scm "NA" spec name = (none, [])) := by
  have hna : convert_scm_url "NA" = "NA" := by decide
  refine ⟨?_, hna, ?_, ?_⟩
  · rw [convert_scm_url]
    by_cases hpre : "https://".toList.isPrefixOf x.data = true
    · rw [if_pos hpre]
    · rw [if_neg hpre, subGo_no_colon h]
      rfl
  · intro http path spec name
    rw [hna, get_jenkinsfile_content, if_pos (Or.inl rfl)]
  · intro http scm spec name
    rw [get_jenkinsfile_content, if_pos (Or.inr rfl)]

/-- C10, witness at the sentinel string `NA` itself. -/
theorem convert_scm_url_c10_witness :
    convert_scm_url "NA" = "NA"
    ∧ convert_scm_url "NA" = "NA"
    ∧ (∀ (http : String → HttpResponse) (path spec name : String),
        get_jenkinsfile_content http (convert_scm_url "NA") path spec name = (none, []))
    ∧ (∀ (http : String → HttpResponse) (scm spec name : String),
        get_jenkinsfile_content http scm "NA" spec name = (none, [])) :=
  convert_scm_url_c10_na "NA" (by decide)

/-! ## Claims about the report assembler (C1, C2, C8, C9) -/

/-- C1: one run of the main loop produces exactly one `ReportRow` per job,
in discovery order, and the CSV gets the header record plus one data
record per job — for every environment, hence regardless of any per-job
metadata or Jenkinsfile fetch outcome. -/
theorem main_rows_one_per_job (env : Env) (jobs : List Job) :
    (main_rows env jobs).length = jobs.length
    ∧ (save_to_csv (main_rows env jobs)).length = jobs.length + 1
    ∧ ∀ i : Nat, (main_rows env jobs)[i]? = jobs[i]?.map (process_job env) := by
  refine ⟨by simp [main_rows], by simp [save_to_csv, main_rows], fun i => ?_⟩
  simp [main_rows]

/-- C2: when the fetched pipeline type is `Pipeline Script` or `Unknown or
not a Pipeline job`, the row unconditionally carries `is_modular = false`
and `NA` for both library fields, and no Jenkinsfile request is issued for
the job. -/
theorem script_pipeline_row (env : Env) (job : Job)
    (h : env.pipeline_type job.url = "Pipeline Script" ∨
         env.pipeline_type job.url = "Unknown or not a Pipeline job") :
    (process_job env job).is_modular = .ofBool false
    ∧ (process_job env job).shared_library = "NA"
    ∧ (process_job env job).shared_library_module = "NA"
    ∧ process_job_attempts env job = [] := by
  refine ⟨?_, ?_, ?_, ?_⟩ <;>
    simp only [process_job, process_job_attempts, if_pos h]

/-- The constant environment used to witness C2: every job reads as a
`Pipeline Script` job with no SCM data and no recorded run. -/
def envScript : Env :=
  { pipeline_type := fun _ => "Pipeline Script"
    scm_url := fun _ => "NA"
    jenkinsfile_path := fun _ => "NA"
    branch_specifier := fun _ => "**"
    last_run := fun _ => none
    http := fun _ => ⟨404, ""⟩
    now := 0
    strftime := fun _ => "" }

/-- A concrete discovered job. -/
def job0 : Job := ⟨"demo-job", "TeamA -> demo-job", "http://jenkins/job/demo-job/"⟩

/-- C2, witness at the concrete environment and job. -/
theorem script_pipeline_row_witness :
    (envScript.pipeline_type job0.url = "Pipeline Script" ∨
      envScript.pipeline_type job0.url = "Unknown or not a Pipeline job")
    ∧ ((process_job envScript job0).is_modular = .ofBool false
      ∧ (process_job envScript job0).shared_library = "NA"
      ∧ (process_job envScript job0).shared_library_module = "NA"
      ∧ process_job_attempts envScript job0 = []) :=
  ⟨Or.inl rfl, script_pipeline_row envScript job0 (Or.inl rfl)⟩

/-- C8: staleness in the assembled row — a job with no recorded run is
marked stale; a run exactly 91 days before the current time is stale; a
run 89 days before is not; and in general the helper performs the strict
comparison of the last run against the instant 90 days before now. -/
theorem staleness_thresholds (env : Env) (job : Job) :
    ((process_job env job).is_last_run_old =
      match env.last_run job.url with
      | none => true
      | some t => (is_older_than_three_months env.now (some t)).getD false)
    ∧ is_older_than_three_months env.now (some (env.now - 91 * 86400)) = some true
    ∧ is_older_than_three_months env.now (some (env.now - 89 * 86400)) = some false
    ∧ ∀ t : Int, is_older_than_three_months env.now (some t)
        = some (decide (t < env.now - 90 * 86400)) := by
  refine ⟨?_, ?_, ?_, fun t => rfl⟩
  · simp only [process_job]
    cases env.last_run job.url <;> rfl
  · simp only [is_older_than_three_months, Option.some.injEq, decide_eq_true_eq]
    omega
  · simp only [is_older_than_three_months, Option.some.injEq]
    rw [decide_eq_false_iff_not]
    omega

/-- C9: when the pipeline type is `Pipeline Script from SCM` and the
Jenkinsfile fetch yields nothing, the row's `is_modular` field holds the
string `Failed to fetch Jenkinsfile` (a truthy value, so the modular branch
is taken), `shared_library` becomes `No Shared Library` (the parser applied
to the non-string `None`), and the module field stays `NA`. -/
theorem fetch_failure_row (env : Env) (job : Job)
    (hpt : env.pipeline_type job.url = "Pipeline Script from SCM")
    (hfetch : (get_jenkinsfile_content env.http (convert_scm_url (env.scm_url job.url))
        (env.jenkinsfile_path job.url) (env.branch_specifier job.url) job.name).1 = none) :
    (process_job env job).is_modular = .ofStr "Failed to fetch Jenkinsfile"
    ∧ (process_job env job).shared_library = "No Shared Library"
    ∧ (process_job env job).shared_library_module = "NA"
    ∧ (BoolOrStr.ofStr "Failed to fetch Jenkinsfile").truthy = true := by
  have hne : ¬ (env.pipeline_type job.url = "Pipeline Script" ∨
      env.pipeline_type job.url = "Unknown or not a Pipeline job") := by
    rw [hpt]
    decide
  refine ⟨?_, ?_, ?_, by decide⟩ <;>
    simp [process_job, hne, hfetch, check_modularity, parse_shared_library, BoolOrStr.truthy]

/-- The constant environment used to witness C9: every job reads as a
`Pipeline Script from SCM` job whose SCM URL is the `NA` sentinel, so the
content fetch returns nothing. -/
def envScm : Env :=
  { pipeline_type := fun _ => "Pipeline Script from SCM"
    scm_url := fun _ => "NA"
    jenkinsfile_path := fun _ => "Jenkinsfile"
    branch_specifier := fun _ => "**"
    last_run := fun _ => none
    http := fun _ => ⟨404, ""⟩
    now := 0
    strftime := fun _ => "" }

/-- C9, witness at the concrete environment and job. -/
theorem fetch_failure_row_witness :
    envScm.pipeline_type job0.url = "Pipeline Script from SCM"
    ∧ (get_jenkinsfile_content envScm.http (convert_scm_url (envScm.scm_url job0.url))
        (envScm.jenkinsfile_path job0.url) (envScm.branch_specifier job0.url) job0.name).1 = none
    ∧ ((process_job envScm job0).is_modular = .ofStr "Failed to fetch Jenkinsfile"
      ∧ (process_job envScm job0).shared_library = "No Shared Library"
      ∧ (process_job envScm job0).shared_library_module = "NA"
      ∧ (BoolOrStr.ofStr "Failed to fetch Jenkinsfile").truthy = true) :=
  ⟨rfl, by decide, fetch_failure_row envScm job0 rfl (by decide)⟩

/-! ## Claim about `parse_shared_library` (C3) -/

/-- C3, evaluation at the failing input: on content holding exactly the
directive `@Library(['cicd-modular-library','team-lib'])_` the code returns
`cicd-modular-library`, not `team-lib` — the regex group spans
`cicd-modular-library','team-lib`, the comma split leaves a trailing quote
on the first piece and a leading quote on the second, so the exclusion
comparison never fires and the quote-stripped first piece is returned. The
single-library and non-string cases behave as claimed. -/
theorem parse_shared_library_eval :
    parse_shared_library (some "@Library(['cicd-modular-library','team-lib'])_")
      = "cicd-modular-library"
    ∧ parse_shared_library (some "@Library(['cicd-modular-library','team-lib'])_")
      ≠ "team-lib"
    ∧ parse_shared_library (some "@Library(['cicd-modular-library'])_")
      = "No Shared Library"
    ∧ parse_shared_library none = "No Shared Library" := by
  refine ⟨?_, ?_, ?_, rfl⟩ <;> decide

/-! ## Claim about `parse_module_name` (C6) -/

/-- C6, counterexample: the claim says a match literally named `Library` is
skipped and the first qualifying identifier is returned; the code searches
once and returns the sentinel when that single match is named `Library`, so
content whose first call line is `Library(x)` followed by a qualifying
`BigDataGenericPipeline()` line yields `No Module Detected`, not
`BigDataGenericPipeline`. -/
theorem parse_module_name_c6_cex :
    parse_module_name (some "Library(x)\nBigDataGenericPipeline()") = "No Module Detected"
    ∧ parse_module_name (some "Library(x)\nBigDataGenericPipeline()")
      ≠ "BigDataGenericPipeline" := by
  constructor <;> decide

/-- C6 (amended): the scan returns the identifier of the first line
matching the call pattern, except that when that first match is literally
`Library` the sentinel is returned with no further search — so any content
opening with `Library(` yields the sentinel whatever follows; content whose
first matching line is `BigDataGenericPipeline(...)` yields that name;
content with no matching line, or non-string content, yields the
sentinel. -/
theorem parse_module_name_c6_amended :
    (∀ t : List Char,
      parse_module_name (some (String.mk ("Library(".toList ++ t))) = "No Module Detected")
    ∧ parse_module_name
        (some "@Library(['cicd-modular-library','demo-lib'])_\nBigDataGenericPipeline(params)")
        = "BigDataGenericPipeline"
    ∧ parse_module_name (some "echo hello\nno call here") = "No Module Detected"
    ∧ parse_module_name none = "No Module Detected" := by
  refine ⟨fun t => rfl, ?_, ?_, rfl⟩ <;> decide

/-! ## Claim about `get_jenkinsfile_content` (C7) -/

/-- The fixed oracle of C7's counterexample: every request fails with a
body matching the `Project Not Found` sentinel. -/
def httpPNF : String → HttpResponse := fun _ => ⟨404, "Project Not Found"⟩

/-- C7, counterexample: with branch specifier `**` the claim says `master`
is attempted whenever `main` does not succeed; under `httpPNF` the `main`
attempt returns 404 — no success — yet the loop stops after `main`,
returning the mapped sentinel, and `master` is never attempted. -/
theorem gjc_c7_cex :
    (get_jenkinsfile_content httpPNF "repo" "Jenkinsfile" "**" "job").2 = ["main"]
    ∧ (get_jenkinsfile_content httpPNF "repo" "Jenkinsfile" "**" "job").1
      = some "Project Not Found"
    ∧ (httpPNF (mk_jenkinsfile_url "repo" "Jenkinsfile" "main")).status_code ≠ 200
    ∧ (get_jenkinsfile_content httpPNF "repo" "Jenkinsfile" "**" "job").2
      ≠ ["main", "master"] := by
  refine ⟨?_, ?_, ?_, ?_⟩ <;> decide

/-- Whether a failed response body matches one of the three error
substrings the branch loop maps to sentinels. -/
def sentinel_match (body : String) : Bool :=
  py_in "Project Not Found" body || py_in "File Not Found" body ||
    py_in "Commit Not Found" body

theorem fetch_loop_singleton (http : String → HttpResponse) (scm path b : String) :
    (fetch_loop http scm path [b]).2 = [b] := by
  rw [fetch_loop]
  split
  · rfl
  · split
    · rfl
    · split
      · rfl
      · split <;> rfl

/-- C7 (amended): with branch specifier `**` or `Any` the candidate list is
`main` then `master`; a 200 on `main` short-circuits and returns its body;
but a failed `main` response whose body matches a known error sentinel also
short-circuits (no `master` attempt); only when the `main` response neither
succeeds nor matches a sentinel are both branches attempted. Any other
specifier attempts exactly the one branch obtained by deleting `*/`. -/
theorem gjc_c7_amended (http : String → HttpResponse) (scm path spec name : String)
    (hscm : scm ≠ "NA") (hpath : path ≠ "NA") :
    (¬(spec = "**" ∨ spec = "Any") →
      (get_jenkinsfile_content http scm path spec name).2
        = [String.mk (replaceStarSlash spec.data)])
    ∧ ((spec = "**" ∨ spec = "Any") →
      ((http (mk_jenkinsfile_url scm path "main")).status_code = 200 →
        get_jenkinsfile_content http scm path spec name
          = (some (http (mk_jenkinsfile_url scm path "main")).text, ["main"]))
      ∧ ((http (mk_jenkinsfile_url scm path "main")).status_code ≠ 200 →
          sentinel_match (http (mk_jenkinsfile_url scm path "main")).text = true →
          (get_jenkinsfile_content http scm path spec name).2 = ["main"])
      ∧ ((http (mk_jenkinsfile_url scm path "main")).status_code ≠ 200 →
          sentinel_match (http (mk_jenkinsfile_url scm path "main")).text = false →
          (get_jenkinsfile_content http scm path spec name).2 = ["main", "master"])) := by
  have hna : ¬ (scm = "NA" ∨ path = "NA") := by
    rintro (h | h)
    · exact hscm h
    · exact hpath h
  constructor
  · intro hspec
    rw [get_jenkinsfile_content, if_neg hna, branches_to_try, if_neg hspec]
    exact fetch_loop_singleton http scm path _
  · intro hspec
    rw [get_jenkinsfile_content, if_neg hna, branches_to_try, if_pos hspec]
    refine ⟨fun h200 => ?_, fun hn200 hsent => ?_, fun hn200 hsent => ?_⟩
    · rw [fetch_loop, if_pos h200]
    · rw [fetch_loop, if_neg hn200]
      by_cases h1 : py_in "Project Not Found" (http (mk_jenkinsfile_url scm path "main")).text = true
      · rw [if_pos h1]
      · rw [if_neg h1]
        by_cases h2 : py_in "File Not Found" (http (mk_jenkinsfile_url scm path "main")).text = true
        · rw [if_pos h2]
        · rw [if_neg h2]
          have h3 : py_in "Commit Not Found" (http (mk_jenkinsfile_url scm path "main")).text = true := by
            rw [sentinel_match] at hsent
            rcases Bool.or_eq_true_iff.mp hsent with h | h
            · rcases Bool.or_eq_true_iff.mp h with ha | ha
              · exact absurd ha h1
              · exact absurd ha h2
            · exact h
          rw [if_pos h3]
    · have hb := hsent
      rw [sentinel_match] at hb
      have h1 : py_in "Project Not Found" (http (mk_jenkinsfile_url scm path "main")).text = false := by
        rcases hp : py_in "Project Not Found" (http (mk_jenkinsfile_url scm path "main")).text
        · rfl
        · rw [hp] at hb; simp at hb
      have h2 : py_in "File Not Found" (http (mk_jenkinsfile_url scm path "main")).text = false := by
        rcases hp : py_in "File Not Found" (http (mk_jenkinsfile_url scm path "main")).text
        · rfl
        · rw [hp] at hb; simp at hb
      have h3 : py_in "Commit Not Found" (http (mk_jenkinsfile_url scm path "main")).text = false := by
        rcases hp : py_in "Commit Not Found" (http (mk_jenkinsfile_url scm path "main")).text
        · rfl
        · rw [hp] at hb; simp at hb
      rw [fetch_loop, if_neg hn200, if_neg (by simp [h1]), if_neg (by simp [h2]),
        if_neg (by simp [h3])]
      simp [fetch_loop_singleton]

/-- C7, witness for the amended theorem: an oracle answering 200
everywhere, branch specifier `**`. -/
theorem gjc_c7_witness :
    ("repo" : String) ≠ "NA"
    ∧ ("Jenkinsfile" : String) ≠ "NA"
    ∧ ((¬(("**" : String) = "**" ∨ ("**" : String) = "Any") →
        (get_jenkinsfile_content (fun _ => ⟨200, "pipeline text"⟩) "repo" "Jenkinsfile" "**" "job").2
          = [String.mk (replaceStarSlash ("**" : String).data)])
      ∧ ((("**" : String) = "**" ∨ ("**" : String) = "Any") →
        (((fun _ => (⟨200, "pipeline text"⟩ : HttpResponse)) (mk_jenkinsfile_url "repo" "Jenkinsfile" "main")).status_code = 200 →
          get_jenkinsfile_content (fun _ => ⟨200, "pipeline text"⟩) "repo" "Jenkinsfile" "**" "job"
            = (some ((fun _ => (⟨200, "pipeline text"⟩ : HttpResponse)) (mk_jenkinsfile_url "repo" "Jenkinsfile" "main")).text, ["main"]))
        ∧ (((fun _ => (⟨200, "pipeline text"⟩ : HttpResponse)) (mk_jenkinsfile_url "repo" "Jenkinsfile" "main")).status_code ≠ 200 →
            sentinel_match ((fun _ => (⟨200, "pipeline text"⟩ : HttpResponse)) (mk_jenkinsfile_url "repo" "Jenkinsfile" "main")).text = true →
            (get_jenkinsfile_content (fun _ => ⟨200, "pipeline text"⟩) "repo" "Jenkinsfile" "**" "job").2 = ["main"])
        ∧ (((fun _ => (⟨200, "pipeline text"⟩ : HttpResponse)) (mk_jenkinsfile_url "repo" "Jenkinsfile" "main")).status_code ≠ 200 →
            sentinel_match ((fun _ => (⟨200, "pipeline text"⟩ : HttpResponse)) (mk_jenkinsfile_url "repo" "Jenkinsfile" "main")).text = false →
            (get_jenkinsfile_content (fun _ => ⟨200, "pipeline text"⟩) "repo" "Jenkinsfile" "**" "job").2 = ["main", "master"]))) :=
  ⟨by decide, by decide,
    gjc_c7_amended (fun _ => ⟨200, "pipeline text"⟩) "repo" "Jenkinsfile" "**" "job"
      (by decide) (by decide)⟩

end Consolidator
